import Mathlib

/-!
Verification of the crash-recovery core of the vdo repository.

The development shallowly embeds the sampled sources:
  src/utils/vdo/base/journalPoint.h        (journal points)
  src/utils/vdo/base/vioPool.c             (the VIO resource pool)
  src/utils/vdo/base/slabScrubberInternals.h (the slab scrubber state)

Machine integers are embedded as Nat with explicit reduction modulo
2 ^ 16 or 2 ^ 64 wherever the C code can overflow.
-/

/-- The absolute position of an entry in a recovery or slab journal
(journalPoint.h).  In C, sequenceNumber is a uint64_t and entryCount a
uint16_t; both are embedded as Nat, and each operation that can wrap
applies the explicit modulus of its C type. -/
structure JournalPoint where
  sequenceNumber : Nat
  entryCount : Nat
deriving DecidableEq

/-- A packed encoding of a JournalPoint (journalPoint.h): a single
uint64_t holding 48 bits of sequence number above a 16 bit entry count. -/
structure PackedJournalPoint where
  encodedPoint : Nat
deriving DecidableEq

/-- advanceJournalPoint (journalPoint.h lines 51-59): move the point
forward by one entry.  The uint16_t increment of entryCount and the
uint64_t increment of sequenceNumber wrap at their type bounds. -/
def advanceJournalPoint (point : JournalPoint) (entriesPerBlock : Nat) :
    JournalPoint :=
  if (point.entryCount + 1) % 2 ^ 16 = entriesPerBlock then
    { sequenceNumber := (point.sequenceNumber + 1) % 2 ^ 64, entryCount := 0 }
  else
    { sequenceNumber := point.sequenceNumber,
      entryCount := (point.entryCount + 1) % 2 ^ 16 }

/-- advanceJournalPoint applied n times with a fixed entriesPerBlock. -/
def advanceTimes (point : JournalPoint) (entriesPerBlock : Nat) :
    Nat → JournalPoint
  | 0 => point
  | n + 1 => advanceJournalPoint (advanceTimes point entriesPerBlock n)
      entriesPerBlock

/-- isValidJournalPoint (journalPoint.h lines 68-71).  The C function also
guards against a NULL pointer; for plain values only the sequence-number
test remains. -/
def isValidJournalPoint (point : JournalPoint) : Bool :=
  decide (0 < point.sequenceNumber)

/-- beforeJournalPoint (journalPoint.h lines 82-88): the strict
lexicographic order on (sequenceNumber, entryCount). -/
def beforeJournalPoint (first second : JournalPoint) : Bool :=
  decide (first.sequenceNumber < second.sequenceNumber)
    || (decide (first.sequenceNumber = second.sequenceNumber)
        && decide (first.entryCount < second.entryCount))

/-- areEquivalentJournalPoints (journalPoint.h lines 99-104): both fields
equal. -/
def areEquivalentJournalPoints (first second : JournalPoint) : Bool :=
  decide (first.sequenceNumber = second.sequenceNumber)
    && decide (first.entryCount = second.entryCount)

/-- packJournalPoint (journalPoint.h lines 113-118): the uint64_t shift
wraps modulo 2 ^ 64 before the entry count is merged in. -/
def packJournalPoint (unpacked : JournalPoint) : PackedJournalPoint :=
  { encodedPoint :=
      ((unpacked.sequenceNumber <<< 16) % 2 ^ 64) ||| unpacked.entryCount }

/-- unpackJournalPoint (journalPoint.h lines 127-132). -/
def unpackJournalPoint (packed : PackedJournalPoint) : JournalPoint :=
  { sequenceNumber := packed.encodedPoint >>> 16,
    entryCount := packed.encodedPoint &&& 0xffff }

/-- Prop form of beforeJournalPoint. -/
lemma beforeJournalPoint_eq_true_iff (a b : JournalPoint) :
    beforeJournalPoint a b = true ↔
      a.sequenceNumber < b.sequenceNumber
      ∨ (a.sequenceNumber = b.sequenceNumber ∧ a.entryCount < b.entryCount) := by
  simp [beforeJournalPoint]

/-- Prop form of the negative case of beforeJournalPoint. -/
lemma beforeJournalPoint_eq_false_iff (a b : JournalPoint) :
    beforeJournalPoint a b = false ↔
      ¬ (a.sequenceNumber < b.sequenceNumber
          ∨ (a.sequenceNumber = b.sequenceNumber
              ∧ a.entryCount < b.entryCount)) := by
  rw [← beforeJournalPoint_eq_true_iff, Bool.eq_false_iff, ne_eq]

/-- Prop form of areEquivalentJournalPoints. -/
lemma areEquivalentJournalPoints_eq_true_iff (a b : JournalPoint) :
    areEquivalentJournalPoints a b = true ↔
      a.sequenceNumber = b.sequenceNumber ∧ a.entryCount = b.entryCount := by
  simp [areEquivalentJournalPoints]

/-- Prop form of the negative case of areEquivalentJournalPoints. -/
lemma areEquivalentJournalPoints_eq_false_iff (a b : JournalPoint) :
    areEquivalentJournalPoints a b = false ↔
      ¬ (a.sequenceNumber = b.sequenceNumber
          ∧ a.entryCount = b.entryCount) := by
  rw [← areEquivalentJournalPoints_eq_true_iff, Bool.eq_false_iff, ne_eq]

/-- C9: isValidJournalPoint returns true exactly when the sequence number
is nonzero; any point with positive sequence number is valid and sequence
number zero marks no valid position. -/
theorem C9_isValid_iff_sequenceNumber_nonzero (p : JournalPoint) :
    isValidJournalPoint p = true ↔ p.sequenceNumber ≠ 0 := by
  simp [isValidJournalPoint, Nat.pos_iff_ne_zero]

/-- Witness for C9 at a concrete point. -/
theorem C9_isValid_iff_sequenceNumber_nonzero_witness :
    isValidJournalPoint { sequenceNumber := 3, entryCount := 0 } = true :=
  (C9_isValid_iff_sequenceNumber_nonzero
    { sequenceNumber := 3, entryCount := 0 }).mpr (by decide)

/-- C5: beforeJournalPoint is transitive, and for any two points exactly
one of before(a,b), before(b,a), equivalent(a,b) holds, so the journal
point order is a strict total order. -/
theorem C5_before_strict_total_order (a b c : JournalPoint) :
    (beforeJournalPoint a b = true → beforeJournalPoint b c = true →
        beforeJournalPoint a c = true)
    ∧ ((beforeJournalPoint a b = true ∧ beforeJournalPoint b a = false
          ∧ areEquivalentJournalPoints a b = false)
        ∨ (beforeJournalPoint a b = false ∧ beforeJournalPoint b a = true
          ∧ areEquivalentJournalPoints a b = false)
        ∨ (beforeJournalPoint a b = false ∧ beforeJournalPoint b a = false
          ∧ areEquivalentJournalPoints a b = true)) := by
  simp only [beforeJournalPoint_eq_true_iff, beforeJournalPoint_eq_false_iff,
    areEquivalentJournalPoints_eq_true_iff,
    areEquivalentJournalPoints_eq_false_iff]
  omega

/-- Witness for C5: transitivity applied at three concrete points. -/
theorem C5_before_strict_total_order_witness :
    beforeJournalPoint { sequenceNumber := 1, entryCount := 0 }
      { sequenceNumber := 2, entryCount := 5 } = true :=
  (C5_before_strict_total_order
      { sequenceNumber := 1, entryCount := 0 }
      { sequenceNumber := 2, entryCount := 0 }
      { sequenceNumber := 2, entryCount := 5 }).1 (by decide) (by decide)

/-- Value of a packed point as a split sum, for entry counts that fit in
16 bits. -/
lemma packJournalPoint_encodedPoint (p : JournalPoint)
    (hec : p.entryCount < 2 ^ 16) :
    (packJournalPoint p).encodedPoint
      = 2 ^ 16 * (p.sequenceNumber % 2 ^ 48) + p.entryCount := by
  have h1 : p.sequenceNumber <<< 16 % 2 ^ 64
      = 2 ^ 16 * (p.sequenceNumber % 2 ^ 48) := by
    rw [Nat.shiftLeft_eq, Nat.mul_comm p.sequenceNumber,
      show (2 : Nat) ^ 64 = 2 ^ 16 * 2 ^ 48 from by norm_num,
      Nat.mul_mod_mul_left]
  rw [packJournalPoint]
  rw [h1, ← Nat.mul_add_lt_is_or hec]

/-- Unpacking a packed point truncates the sequence number to 48 bits and
preserves the entry count exactly. -/
lemma unpack_pack (p : JournalPoint) (hec : p.entryCount < 2 ^ 16) :
    unpackJournalPoint (packJournalPoint p)
      = { sequenceNumber := p.sequenceNumber % 2 ^ 48,
          entryCount := p.entryCount } := by
  have henc := packJournalPoint_encodedPoint p hec
  have hmask : (0xffff : Nat) = 2 ^ 16 - 1 := by norm_num
  rw [unpackJournalPoint, henc]
  congr 1
  · rw [Nat.shiftRight_eq_div_pow,
      Nat.mul_add_div (Nat.two_pow_pos 16), Nat.div_eq_of_lt hec,
      Nat.add_zero]
  · rw [hmask, Nat.and_pow_two_sub_one_eq_mod, Nat.mul_add_mod,
      Nat.mod_eq_of_lt hec]

/-- C3: for a point whose entry count fits its uint16_t type, unpacking
the packed encoding returns the entry count exactly and the sequence
number reduced modulo 2 ^ 48; when the sequence number is below 2 ^ 48
the round trip is exact. -/
theorem C3_pack_unpack_roundtrip (p : JournalPoint)
    (hec : p.entryCount < 2 ^ 16) :
    (p.sequenceNumber < 2 ^ 48 →
        unpackJournalPoint (packJournalPoint p) = p)
    ∧ (unpackJournalPoint (packJournalPoint p)).entryCount = p.entryCount
    ∧ (unpackJournalPoint (packJournalPoint p)).sequenceNumber
        = p.sequenceNumber % 2 ^ 48 := by
  have h := unpack_pack p hec
  refine ⟨fun hseq => ?_, by rw [h], by rw [h]⟩
  rw [h, Nat.mod_eq_of_lt hseq]

/-- Witness for C3 at a concrete point. -/
theorem C3_pack_unpack_roundtrip_witness :
    unpackJournalPoint
        (packJournalPoint { sequenceNumber := 5, entryCount := 7 })
      = { sequenceNumber := 5, entryCount := 7 } :=
  (C3_pack_unpack_roundtrip { sequenceNumber := 5, entryCount := 7 }
    (by norm_num)).1 (by norm_num)

/-- Before the carry is reached, each advance step simply counts entries. -/
lemma advanceTimes_below (p : JournalPoint) (epb : Nat)
    (hec : p.entryCount = 0) (hlt : epb < 2 ^ 16) :
    ∀ k, k < epb →
      advanceTimes p epb k
        = { sequenceNumber := p.sequenceNumber, entryCount := k } := by
  intro k
  induction k with
  | zero =>
    intro _
    show p = { sequenceNumber := p.sequenceNumber, entryCount := 0 }
    rw [← hec]
  | succ n ih =>
    intro hn
    have hn' : n < epb := Nat.lt_of_succ_lt hn
    rw [advanceTimes, ih hn', advanceJournalPoint]
    rw [if_neg (show ¬ ((n + 1) % 2 ^ 16 = epb) from by omega)]
    simp only [JournalPoint.mk.injEq]
    exact ⟨trivial, by omega⟩

/-- C4 counterexample: the claim fails at the concrete point with
sequenceNumber 2 ^ 64 - 1 and entryCount 0 with entriesPerBlock 1, where
one advance wraps the uint64_t sequence number to 0 instead of reaching
2 ^ 64. -/
theorem C4_advance_counterexample :
    ¬ ((advanceTimes { sequenceNumber := 2 ^ 64 - 1, entryCount := 0 } 1
          1).sequenceNumber
        = 2 ^ 64 - 1 + 1) := by
  decide

/-- C4 (amended): starting from any point whose entryCount is 0 and whose
sequenceNumber is below 2 ^ 64 - 1, for every entriesPerBlock with
0 < entriesPerBlock < 2 ^ 16, calling advance exactly entriesPerBlock
times increments sequenceNumber by 1 and resets entryCount to 0, and
calling it k < entriesPerBlock times leaves sequenceNumber unchanged with
entryCount equal to k; at sequenceNumber 2 ^ 64 - 1 the increment wraps
to 0 instead. -/
theorem C4_advance_amended (p : JournalPoint) (epb : Nat)
    (hec : p.entryCount = 0) (hpos : 0 < epb) (hlt : epb < 2 ^ 16)
    (hseq : p.sequenceNumber + 1 < 2 ^ 64) :
    (advanceTimes p epb epb).sequenceNumber = p.sequenceNumber + 1
    ∧ (advanceTimes p epb epb).entryCount = 0
    ∧ ∀ k, k < epb →
        (advanceTimes p epb k).sequenceNumber = p.sequenceNumber
        ∧ (advanceTimes p epb k).entryCount = k := by
  obtain ⟨m, rfl⟩ : ∃ m, epb = m + 1 := ⟨epb - 1, by omega⟩
  have hstep : advanceTimes p (m + 1) (m + 1)
      = { sequenceNumber := p.sequenceNumber + 1, entryCount := 0 } := by
    rw [advanceTimes, advanceTimes_below p (m + 1) hec hlt m (by omega),
      advanceJournalPoint]
    rw [if_pos (show (m + 1) % 2 ^ 16 = m + 1 from by omega)]
    simp only [JournalPoint.mk.injEq]
    exact ⟨Nat.mod_eq_of_lt hseq, trivial⟩
  refine ⟨by rw [hstep], by rw [hstep], fun k hk => ?_⟩
  rw [advanceTimes_below p (m + 1) hec hlt k hk]
  exact ⟨rfl, rfl⟩

/-- Witness for C4 (amended) at a concrete point. -/
theorem C4_advance_amended_witness :
    (advanceTimes { sequenceNumber := 9, entryCount := 0 } 4
        4).sequenceNumber = 10
    ∧ (advanceTimes { sequenceNumber := 9, entryCount := 0 } 4
        2).entryCount = 2 := by
  have h := C4_advance_amended { sequenceNumber := 9, entryCount := 0 } 4
    rfl (by norm_num) (by norm_num) (by norm_num)
  exact ⟨h.1, (h.2.2 2 (by norm_num)).2⟩

/-- VDO_SUCCESS, the success status code. -/
def VDO_SUCCESS : Int := 0

/-- Increment of a uint64_t (or 64 bit size_t) cell. -/
def inc64 (n : Nat) : Nat := (n + 1) % 2 ^ 64

/-- Decrement of a uint64_t (or 64 bit size_t) cell; wraps at zero. -/
def dec64 (n : Nat) : Nat := (n + (2 ^ 64 - 1)) % 2 ^ 64

/-- The VIOPool state (vioPool.c lines 35-52).  Pool entries are
identified by their index in the entries array.  The available and busy
fields model the two intrusive RingNode rings and waiting models the
WaitQueue of requestor ids.  The ring and wait-queue helpers are declared
outside the sampled sources; modelled from the spec: the wait queue is
strictly FIFO (append at the tail, notify from the head), and ring push
appends at the tail while ring chop pops the head. -/
structure VIOPool where
  size : Nat
  available : List Nat
  waiting : List Nat
  busyCount : Nat
  busy : List Nat
  outageCount : Nat
deriving DecidableEq

/-- The pool produced by a fully successful makeVIOPool (vioPool.c lines
55-97): all entries on the available ring in index order, no waiters, no
busy entries, zero counters. -/
def freshVIOPool (size : Nat) : VIOPool :=
  { size := size, available := List.range size, waiting := [],
    busyCount := 0, busy := [], outageCount := 0 }

/-- acquireVIOFromPool (vioPool.c lines 143-155).  Returns the updated
pool, the int status, and the entry passed synchronously to the waiter
callback, or none when there was no available entry and the waiter was
queued after the outage count was bumped.  Modelled from the spec:
enqueueWaiter appends the waiter to the FIFO queue and reports success. -/
def acquireVIOFromPool (pool : VIOPool) (waiter : Nat) :
    VIOPool × Int × Option Nat :=
  match pool.available with
  | [] =>
    ({ pool with outageCount := inc64 pool.outageCount,
                 waiting := pool.waiting ++ [waiter] },
     VDO_SUCCESS, none)
  | entry :: rest =>
    ({ pool with busyCount := inc64 pool.busyCount,
                 available := rest,
                 busy := pool.busy ++ [entry] },
     VDO_SUCCESS, some entry)

/-- returnVIOToPool (vioPool.c lines 158-168).  Returns the updated pool
and, when a waiter was pending, the notified waiter paired with the entry
handed to it; on that path the entry stays on the busy ring and never
touches the available list.  Modelled from the spec: notifyNextWaiter
pops the earliest waiter, and pushing the entry onto the available ring
removes it from the busy ring. -/
def returnVIOToPool (pool : VIOPool) (entry : Nat) :
    VIOPool × Option (Nat × Nat) :=
  match pool.waiting with
  | w :: rest => ({ pool with waiting := rest }, some (w, entry))
  | [] =>
    ({ pool with available := pool.available ++ [entry],
                 busy := pool.busy.erase entry,
                 busyCount := dec64 pool.busyCount },
     none)

/-- A sequence of acquire calls with no intervening releases, returning
the final pool and the list of per-call results. -/
def acquireSeq : VIOPool → List Nat → VIOPool × List (Int × Option Nat)
  | pool, [] => (pool, [])
  | pool, w :: ws =>
    let r := acquireVIOFromPool pool w
    let rest := acquireSeq r.1 ws
    (rest.1, r.2 :: rest.2)

/-- isVIOPoolBusy (vioPool.c lines 137-140). -/
def isVIOPoolBusy (pool : VIOPool) : Bool :=
  pool.busyCount != 0

/-- getVIOPoolOutageCount (vioPool.c lines 171-174). -/
def getVIOPoolOutageCount (pool : VIOPool) : Nat :=
  pool.outageCount

/-- The pool representation invariant: the available list length plus the
busy count is the capacity, the rings are duplicate free, the entries on
the rings are exactly the indices below the capacity (so each entry is on
exactly one of the two rings), and busyCount counts the busy ring. -/
def poolInvariant (pool : VIOPool) : Prop :=
  pool.available.length + pool.busyCount = pool.size
  ∧ (pool.available ++ pool.busy).Nodup
  ∧ (∀ e ∈ pool.available ++ pool.busy, e < pool.size)
  ∧ (∀ e, e < pool.size → e ∈ pool.available ++ pool.busy)
  ∧ pool.busyCount = pool.busy.length

instance (pool : VIOPool) : Decidable (poolInvariant pool) := by
  unfold poolInvariant
  infer_instance

/-- The conjunction of the ASSERT_LOG_ONLY checks of freeVIOPool
(vioPool.c lines 100-134): no waiters, zero busy count, empty busy ring,
and no entry node still linked once the available entries have been
chopped off (an entry node stays linked exactly when the entry is on the
busy ring). -/
def freeVIOPoolAssertsOk (pool : VIOPool) : Bool :=
  pool.waiting.isEmpty && (pool.busyCount == 0) && pool.busy.isEmpty
    && (List.range pool.size).all (fun i => decide (i ∉ pool.busy))

/-- While entries remain available, a run of acquires pops them in order,
moves them to the busy ring, counts them busy, and grants each waiter its
entry synchronously with VDO_SUCCESS; the wait queue and outage count are
untouched. -/
lemma acquireSeq_spec (ws : List Nat) :
    ∀ pool : VIOPool, ws.length ≤ pool.available.length →
      pool.busyCount + ws.length < 2 ^ 64 →
      acquireSeq pool ws
        = ({ pool with available := pool.available.drop ws.length,
                       busy := pool.busy ++ pool.available.take ws.length,
                       busyCount := pool.busyCount + ws.length },
           (pool.available.take ws.length).map
             fun e => (VDO_SUCCESS, some e)) := by
  induction ws with
  | nil =>
    intro pool _ _
    simp [acquireSeq]
  | cons w ws ih =>
    intro pool hlen hcnt
    obtain ⟨sz, avail, wq, bc, busy, oc⟩ := pool
    match avail, hlen with
    | e :: rest, hlen =>
      have hlen' : ws.length + 1 ≤ rest.length + 1 := by simpa using hlen
      have hcnt' : bc + (ws.length + 1) < 2 ^ 64 := by simpa using hcnt
      have hbc : inc64 bc = bc + 1 := by
        unfold inc64
        omega
      have step : acquireSeq ⟨sz, e :: rest, wq, bc, busy, oc⟩ (w :: ws)
          = ((acquireSeq ⟨sz, rest, wq, bc + 1, busy ++ [e], oc⟩ ws).1,
             (VDO_SUCCESS, some e)
               :: (acquireSeq ⟨sz, rest, wq, bc + 1, busy ++ [e], oc⟩
                     ws).2) := by
        simp only [acquireSeq, acquireVIOFromPool, hbc]
      rw [step,
        ih ⟨sz, rest, wq, bc + 1, busy ++ [e], oc⟩
          (by show ws.length ≤ rest.length; omega)
          (by show bc + 1 + ws.length < 2 ^ 64; omega)]
      dsimp only
      simp only [Prod.mk.injEq, VIOPool.mk.injEq, List.length_cons,
        List.drop_succ_cons, List.take_succ_cons, List.map_cons,
        List.append_assoc, List.singleton_append, true_and, and_true]
      omega

/-- C1: on a freshly constructed pool of capacity size, a run of size
acquires returns VDO_SUCCESS each time and synchronously grants the
pairwise distinct entries 0 .. size - 1, leaving busyCount equal to size;
one further acquire grants nothing, appends its waiter to the FIFO wait
queue, and bumps the outage count from 0 to exactly 1. -/
theorem C1_fresh_pool_acquires (size : Nat) (hsize : 1 ≤ size)
    (hrep : size < 2 ^ 64) (ws : List Nat) (hws : ws.length = size)
    (extra : Nat) :
    (acquireSeq (freshVIOPool size) ws).2
        = (List.range size).map (fun e => (VDO_SUCCESS, some e))
    ∧ (∀ r ∈ (acquireSeq (freshVIOPool size) ws).2,
        r.1 = VDO_SUCCESS ∧ r.2 ≠ none)
    ∧ ((acquireSeq (freshVIOPool size) ws).2.filterMap
          (fun r => r.2)).Nodup
    ∧ (acquireSeq (freshVIOPool size) ws).1.busyCount = size
    ∧ (acquireVIOFromPool (acquireSeq (freshVIOPool size) ws).1
          extra).2.2 = none
    ∧ (acquireVIOFromPool (acquireSeq (freshVIOPool size) ws).1
          extra).1.waiting
        = (acquireSeq (freshVIOPool size) ws).1.waiting ++ [extra]
    ∧ getVIOPoolOutageCount
          (acquireVIOFromPool (acquireSeq (freshVIOPool size) ws).1
            extra).1
        = getVIOPoolOutageCount (acquireSeq (freshVIOPool size) ws).1
            + 1 := by
  have hspec := acquireSeq_spec ws (freshVIOPool size)
    (by simp [freshVIOPool, hws]) (by simp [freshVIOPool, hws]; omega)
  have htake : (List.range size).take size = List.range size :=
    List.take_of_length_le (by simp)
  have hdrop : (List.range size).drop size = [] :=
    List.drop_eq_nil_of_le (by simp)
  refine ⟨?_, ?_, ?_, ?_, ?_, ?_, ?_⟩
  · rw [hspec]
    simp [freshVIOPool, hws, htake]
  · rw [hspec]
    intro r hr
    simp only [freshVIOPool, hws, htake, List.mem_map] at hr
    obtain ⟨e, _, rfl⟩ := hr
    exact ⟨rfl, by simp⟩
  · rw [hspec]
    simp only [freshVIOPool, hws, htake, List.filterMap_map]
    have hcomp : ((fun r : Int × Option Nat => r.2)
        ∘ fun e : Nat => (VDO_SUCCESS, some e)) = some := rfl
    rw [hcomp, List.filterMap_some]
    exact List.nodup_range size
  · rw [hspec]
    simp [freshVIOPool, hws]
  · rw [hspec]
    simp [freshVIOPool, hws, hdrop, acquireVIOFromPool]
  · rw [hspec]
    simp [freshVIOPool, hws, hdrop, acquireVIOFromPool]
  · rw [hspec]
    simp [freshVIOPool, hws, hdrop, acquireVIOFromPool,
      getVIOPoolOutageCount, inc64]

/-- Witness for C1 at capacity two. -/
theorem C1_fresh_pool_acquires_witness :
    (acquireSeq (freshVIOPool 2) [10, 11]).2
        = (List.range 2).map (fun e => (VDO_SUCCESS, some e))
    ∧ (∀ r ∈ (acquireSeq (freshVIOPool 2) [10, 11]).2,
        r.1 = VDO_SUCCESS ∧ r.2 ≠ none)
    ∧ ((acquireSeq (freshVIOPool 2) [10, 11]).2.filterMap
          (fun r => r.2)).Nodup
    ∧ (acquireSeq (freshVIOPool 2) [10, 11]).1.busyCount = 2
    ∧ (acquireVIOFromPool (acquireSeq (freshVIOPool 2) [10, 11]).1
          12).2.2 = none
    ∧ (acquireVIOFromPool (acquireSeq (freshVIOPool 2) [10, 11]).1
          12).1.waiting
        = (acquireSeq (freshVIOPool 2) [10, 11]).1.waiting ++ [12]
    ∧ getVIOPoolOutageCount
          (acquireVIOFromPool (acquireSeq (freshVIOPool 2) [10, 11]).1
            12).1
        = getVIOPoolOutageCount (acquireSeq (freshVIOPool 2) [10, 11]).1
            + 1 :=
  C1_fresh_pool_acquires 2 (by norm_num) (by norm_num) [10, 11] rfl 12

/-- C2: when the wait queue is non-empty, a release hands the released
entry directly to the earliest-queued waiter and leaves the available
list and busyCount unchanged; when the wait queue is empty, a release
appends the entry to the available list and decrements busyCount by 1. -/
theorem C2_release_grant_or_stash (pool : VIOPool) (entry : Nat) :
    (∀ w rest, pool.waiting = w :: rest →
        (returnVIOToPool pool entry).2 = some (w, entry)
        ∧ (returnVIOToPool pool entry).1.available = pool.available
        ∧ (returnVIOToPool pool entry).1.busyCount = pool.busyCount
        ∧ (returnVIOToPool pool entry).1.waiting = rest)
    ∧ (pool.waiting = [] → 0 < pool.busyCount →
        pool.busyCount < 2 ^ 64 →
        (returnVIOToPool pool entry).1.available
            = pool.available ++ [entry]
        ∧ (returnVIOToPool pool entry).1.busyCount + 1 = pool.busyCount
        ∧ (returnVIOToPool pool entry).2 = none) := by
  constructor
  · intro w rest hw
    simp [returnVIOToPool, hw]
  · intro hw h1 h2
    refine ⟨by simp [returnVIOToPool, hw], ?_, by simp [returnVIOToPool, hw]⟩
    have hval : (returnVIOToPool pool entry).1.busyCount
        = dec64 pool.busyCount := by
      simp [returnVIOToPool, hw]
    rw [hval]
    unfold dec64
    omega

/-- Witness for C2 on a concrete pool with no waiters. -/
theorem C2_release_grant_or_stash_witness :
    (returnVIOToPool ⟨2, [0], [], 1, [1], 0⟩ 1).1.available = [0] ++ [1]
    ∧ (returnVIOToPool ⟨2, [0], [], 1, [1], 0⟩ 1).1.busyCount + 1 = 1
    ∧ (returnVIOToPool ⟨2, [0], [], 1, [1], 0⟩ 1).2 = none :=
  (C2_release_grant_or_stash ⟨2, [0], [], 1, [1], 0⟩ 1).2 rfl
    (by norm_num) (by norm_num)

/-- C6: attempting teardown while busyCount is positive or while the wait
queue is non-empty fails one of the freeVIOPool assertions, never
silently passing; teardown with no waiters, zero busyCount, and every
entry back on the available list fires no assertion. -/
theorem C6_teardown_assertions (pool : VIOPool)
    (hinv : poolInvariant pool) :
    ((0 < pool.busyCount ∨ pool.waiting ≠ []) →
        freeVIOPoolAssertsOk pool = false)
    ∧ (pool.busyCount = 0 → pool.waiting = [] →
        (∀ e, e < pool.size → e ∈ pool.available) →
        freeVIOPoolAssertsOk pool = true) := by
  constructor
  · intro h
    cases h with
    | inl hb =>
      have hb' : (pool.busyCount == 0) = false := by
        simp [Nat.pos_iff_ne_zero.mp hb]
      simp [freeVIOPoolAssertsOk, hb']
    | inr hwq =>
      have hw : pool.waiting.isEmpty = false := by
        cases h : pool.waiting with
        | nil => exact absurd h hwq
        | cons a l => rfl
      simp [freeVIOPoolAssertsOk, hw]
  · intro hb hw _
    have hbusy : pool.busy = [] := by
      have hlen := hinv.2.2.2.2
      rw [hb] at hlen
      exact List.length_eq_zero.mp hlen.symm
    simp [freeVIOPoolAssertsOk, hw, hb, hbusy]

/-- Witness for C6 on a concrete quiescent pool. -/
theorem C6_teardown_assertions_witness :
    freeVIOPoolAssertsOk ⟨2, [0, 1], [], 0, [], 0⟩ = true :=
  (C6_teardown_assertions ⟨2, [0, 1], [], 0, [], 0⟩ (by decide)).2 rfl rfl
    (by decide)

/-- C10: the fresh pool satisfies the representation invariant; acquire
and release preserve it (a release must return an entry that is on loan,
that is on the busy ring); and a queued acquire, taken when no entry is
available, changes neither the available list, the busy ring, nor
busyCount. -/
theorem C10_pool_invariant_preserved (pool : VIOPool)
    (hinv : poolInvariant pool) (hrep : pool.size < 2 ^ 64) :
    (∀ n : Nat, poolInvariant (freshVIOPool n))
    ∧ (∀ w, poolInvariant (acquireVIOFromPool pool w).1)
    ∧ (∀ w, pool.available = [] →
        (acquireVIOFromPool pool w).1.available = pool.available
        ∧ (acquireVIOFromPool pool w).1.busy = pool.busy
        ∧ (acquireVIOFromPool pool w).1.busyCount = pool.busyCount)
    ∧ (∀ entry, entry ∈ pool.busy →
        poolInvariant (returnVIOToPool pool entry).1) := by
  obtain ⟨hlen, hnd, hub, hcov, hbc⟩ := hinv
  refine ⟨?_, ?_, ?_, ?_⟩
  · intro n
    simp [poolInvariant, freshVIOPool, List.nodup_range, List.mem_range]
  · intro w
    cases havail : pool.available with
    | nil =>
      simp only [acquireVIOFromPool, havail]
      rw [havail] at hlen hnd hub hcov
      exact ⟨hlen, hnd, hub, hcov, hbc⟩
    | cons e rest =>
      rw [havail] at hlen hnd hub hcov
      simp only [List.length_cons] at hlen
      have hperm : List.Perm ((e :: rest) ++ pool.busy)
          (rest ++ (pool.busy ++ [e])) := by
        rw [← List.append_assoc]
        exact (List.perm_append_singleton e (rest ++ pool.busy)).symm
      have hbc1 : inc64 pool.busyCount = pool.busyCount + 1 := by
        unfold inc64
        omega
      simp only [acquireVIOFromPool, havail]
      refine ⟨?_, hperm.nodup hnd, ?_, ?_, ?_⟩
      · show rest.length + inc64 pool.busyCount = pool.size
        rw [hbc1]
        omega
      · intro x hx
        exact hub x (hperm.mem_iff.mpr hx)
      · intro x hxlt
        exact hperm.mem_iff.mp (hcov x hxlt)
      · show inc64 pool.busyCount = (pool.busy ++ [e]).length
        rw [hbc1, hbc, List.length_append]
        rfl
  · intro w havail
    simp only [acquireVIOFromPool, havail]
    exact ⟨trivial, trivial, trivial⟩
  · intro entry hmem
    cases hw : pool.waiting with
    | cons q qrest =>
      simp only [returnVIOToPool, hw]
      exact ⟨hlen, hnd, hub, hcov, hbc⟩
    | nil =>
      have hpos : 0 < pool.busy.length := List.length_pos_of_mem hmem
      have hdec : dec64 pool.busyCount = pool.busyCount - 1 := by
        unfold dec64
        omega
      have hperm : List.Perm (pool.available ++ pool.busy)
          ((pool.available ++ [entry]) ++ pool.busy.erase entry) := by
        rw [List.append_assoc]
        exact List.Perm.append_left pool.available
          (List.perm_cons_erase hmem)
      simp only [returnVIOToPool, hw]
      refine ⟨?_, hperm.nodup hnd, ?_, ?_, ?_⟩
      · show (pool.available ++ [entry]).length + dec64 pool.busyCount
            = pool.size
        rw [hdec, List.length_append]
        simp only [List.length_singleton]
        omega
      · intro x hx
        exact hub x (hperm.mem_iff.mpr hx)
      · intro x hxlt
        exact hperm.mem_iff.mp (hcov x hxlt)
      · show dec64 pool.busyCount = (pool.busy.erase entry).length
        rw [hdec, List.length_erase_of_mem hmem]
        omega

/-- Witness for C10 on a concrete pool with one entry on loan. -/
theorem C10_pool_invariant_preserved_witness :
    poolInvariant (acquireVIOFromPool ⟨2, [0], [], 1, [1], 0⟩ 7).1
    ∧ poolInvariant (returnVIOToPool ⟨2, [0], [], 1, [1], 0⟩ 1).1 :=
  ⟨(C10_pool_invariant_preserved ⟨2, [0], [], 1, [1], 0⟩ (by decide)
      (by norm_num)).2.1 7,
   (C10_pool_invariant_preserved ⟨2, [0], [], 1, [1], 0⟩ (by decide)
      (by norm_num)).2.2.2 1 (by decide)⟩

/-- A construction-time allocation of makeVIOPool: the extended pool
header, the backing buffer, or the VIO built for one entry. -/
inductive PoolResource
  | header
  | buffer
  | vio (i : Nat)
deriving DecidableEq

/-- The outcomes of the fallible steps of makeVIOPool (vioPool.c lines
55-97): the two ALLOCATE calls and the per-entry vioConstructor callback,
each VDO_SUCCESS or an error code. -/
structure VIOPoolAllocPlan where
  headerResult : Int
  bufferResult : Int
  ctorResult : Nat → Int

/-- Modelled from the spec: the effect of freeVIOPool (vioPool.c lines
100-134) on the ledger of live allocations when it is called to unwind a
partial construction; it frees the VIO of every entry on the available
ring, then the buffer and the pool header, and FREE of a pointer that was
never allocated is a no-op. -/
def freeVIOPoolFrees (pool : VIOPool) (ledger : List PoolResource) :
    List PoolResource :=
  ledger.filter fun r =>
    match r with
    | PoolResource.vio i => decide (i ∉ pool.available)
    | _ => false

/-- The construction loop of makeVIOPool (vioPool.c lines 78-93) over the
remaining entry indices, carrying the partially built pool and the ledger
of live allocations; each constructed entry is pushed onto the available
ring and counted, and on a vioConstructor failure the partial pool is
released with freeVIOPool and the failing step's error is returned. -/
def makeVIOPoolGo (plan : VIOPoolAllocPlan) :
    List Nat → VIOPool → List PoolResource
      → Except Int VIOPool × List PoolResource
  | [], pool, ledger => (Except.ok pool, ledger)
  | i :: rest, pool, ledger =>
    if plan.ctorResult i = VDO_SUCCESS then
      makeVIOPoolGo plan rest
        { pool with available := pool.available ++ [i],
                    size := pool.size + 1 }
        (PoolResource.vio i :: ledger)
    else
      (Except.error (plan.ctorResult i), freeVIOPoolFrees pool ledger)

/-- makeVIOPool (vioPool.c lines 55-97): allocate the extended header,
then the backing buffer, then build each entry; any failure unwinds with
freeVIOPool and returns that step's error, and the pool is produced only
when every step succeeded.  The second component is the list of
allocations still live when the call returns.  Modelled from the spec:
ALLOCATE and FREE are a matched allocation ledger, and an allocation
failure leaves nothing new allocated. -/
def makeVIOPool (plan : VIOPoolAllocPlan) (size : Nat) :
    Except Int VIOPool × List PoolResource :=
  if plan.headerResult ≠ VDO_SUCCESS then
    (Except.error plan.headerResult, [])
  else if plan.bufferResult ≠ VDO_SUCCESS then
    (Except.error plan.bufferResult,
     freeVIOPoolFrees
       { size := 0, available := [], waiting := [], busyCount := 0,
         busy := [], outageCount := 0 }
       [PoolResource.header])
  else
    makeVIOPoolGo plan (List.range size)
      { size := 0, available := [], waiting := [], busyCount := 0,
        busy := [], outageCount := 0 }
      [PoolResource.buffer, PoolResource.header]

/-- The first entry index whose constructor step fails, if any. -/
def firstCtorFailure (plan : VIOPoolAllocPlan) (size : Nat) : Option Nat :=
  (List.range size).find? fun i => decide (plan.ctorResult i ≠ VDO_SUCCESS)

/-- When every ledger entry of VIO kind is on the available ring of the
partial pool, a failing construction loop releases every live
allocation. -/
lemma makeVIOPoolGo_error_clean (plan : VIOPoolAllocPlan) :
    ∀ (l : List Nat) (pool : VIOPool) (ledger : List PoolResource),
      (∀ r ∈ ledger, ∀ i, r = PoolResource.vio i → i ∈ pool.available) →
      ∀ e, (makeVIOPoolGo plan l pool ledger).1 = Except.error e →
        (makeVIOPoolGo plan l pool ledger).2 = [] := by
  intro l
  induction l with
  | nil =>
    intro pool ledger _ e he
    simp [makeVIOPoolGo] at he
  | cons i rest ih =>
    intro pool ledger hled e he
    by_cases hc : plan.ctorResult i = VDO_SUCCESS
    · simp only [makeVIOPoolGo, if_pos hc] at he ⊢
      refine ih _ _ ?_ e he
      intro r hr j hrj
      rcases List.mem_cons.mp hr with hr1 | hr2
      · rw [hr1] at hrj
        injection hrj with hij
        rw [← hij]
        exact List.mem_append_right _ (List.mem_singleton_self i)
      · exact List.mem_append_left _ (hled r hr2 j hrj)
    · simp only [makeVIOPoolGo, if_neg hc]
      refine List.filter_eq_nil_iff.mpr ?_
      intro r hr
      match r with
      | PoolResource.header => simp
      | PoolResource.buffer => simp
      | PoolResource.vio j =>
        simp only [decide_eq_true_eq, not_not]
        exact hled _ hr j rfl

/-- A failing construction loop returns the error of the first failing
constructor step. -/
lemma makeVIOPoolGo_error_value (plan : VIOPoolAllocPlan) :
    ∀ (l : List Nat) (pool : VIOPool) (ledger : List PoolResource) (i : Nat),
      l.find? (fun j => decide (plan.ctorResult j ≠ VDO_SUCCESS)) = some i →
      (makeVIOPoolGo plan l pool ledger).1
        = Except.error (plan.ctorResult i) := by
  intro l
  induction l with
  | nil =>
    intro pool ledger i hf
    simp at hf
  | cons j rest ih =>
    intro pool ledger i hf
    by_cases hc : plan.ctorResult j = VDO_SUCCESS
    · rw [List.find?_cons_of_neg _ (by simp [hc])] at hf
      simp only [makeVIOPoolGo, if_pos hc]
      exact ih _ _ i hf
    · rw [List.find?_cons_of_pos _ (by simp [hc])] at hf
      injection hf with hij
      rw [← hij]
      simp only [makeVIOPoolGo, if_neg hc]

/-- A construction loop with no failing step builds all its entries onto
the available ring in order and counts them. -/
lemma makeVIOPoolGo_success (plan : VIOPoolAllocPlan) :
    ∀ (l : List Nat) (pool : VIOPool) (ledger : List PoolResource),
      (∀ j ∈ l, plan.ctorResult j = VDO_SUCCESS) →
      (makeVIOPoolGo plan l pool ledger).1
        = Except.ok
            { pool with available := pool.available ++ l,
                        size := pool.size + l.length } := by
  intro l
  induction l with
  | nil =>
    intro pool ledger _
    simp [makeVIOPoolGo]
  | cons j rest ih =>
    intro pool ledger hall
    have hc : plan.ctorResult j = VDO_SUCCESS :=
      hall j (List.mem_cons_self j rest)
    simp only [makeVIOPoolGo, if_pos hc]
    rw [ih _ _ (fun k hk => hall k (List.mem_cons_of_mem j hk))]
    dsimp only
    simp only [Except.ok.injEq, VIOPool.mk.injEq, List.append_assoc,
      List.singleton_append, List.length_cons, true_and, and_true]
    omega

/-- C7: if any allocation or entry-constructor step of pool construction
fails, makeVIOPool releases everything already allocated and returns the
failing step's error, and no pool is produced; the pool is produced
exactly on full success, as the fully populated fresh pool. -/
theorem C7_make_pool_atomic_failure (plan : VIOPoolAllocPlan)
    (size : Nat) :
    (∀ e : Int, (makeVIOPool plan size).1 = Except.error e →
        (makeVIOPool plan size).2 = [])
    ∧ (plan.headerResult ≠ VDO_SUCCESS →
        (makeVIOPool plan size).1 = Except.error plan.headerResult)
    ∧ (plan.headerResult = VDO_SUCCESS →
        plan.bufferResult ≠ VDO_SUCCESS →
        (makeVIOPool plan size).1 = Except.error plan.bufferResult)
    ∧ (∀ i, plan.headerResult = VDO_SUCCESS →
        plan.bufferResult = VDO_SUCCESS →
        firstCtorFailure plan size = some i →
        (makeVIOPool plan size).1 = Except.error (plan.ctorResult i))
    ∧ (plan.headerResult = VDO_SUCCESS →
        plan.bufferResult = VDO_SUCCESS →
        firstCtorFailure plan size = none →
        (makeVIOPool plan size).1 = Except.ok (freshVIOPool size)) := by
  by_cases hh : plan.headerResult = VDO_SUCCESS
  · by_cases hb : plan.bufferResult = VDO_SUCCESS
    · have hnoled : ∀ r ∈ [PoolResource.buffer, PoolResource.header],
          ∀ i, r = PoolResource.vio i →
            i ∈ ({ size := 0, available := [], waiting := [],
                   busyCount := 0, busy := [], outageCount := 0 }
                  : VIOPool).available := by
        intro r hr i hri
        rcases List.mem_cons.mp hr with h1 | h2
        · rw [h1] at hri
          exact PoolResource.noConfusion hri
        · rw [List.mem_singleton.mp h2] at hri
          exact PoolResource.noConfusion hri
      have hred : makeVIOPool plan size
          = makeVIOPoolGo plan (List.range size)
              { size := 0, available := [], waiting := [],
                busyCount := 0, busy := [], outageCount := 0 }
              [PoolResource.buffer, PoolResource.header] := by
        simp [makeVIOPool, hh, hb]
      refine ⟨?_, ?_, ?_, ?_, ?_⟩
      · intro e he
        rw [hred] at he ⊢
        exact makeVIOPoolGo_error_clean plan _ _ _ hnoled e he
      · intro h
        exact absurd hh h
      · intro _ h
        exact absurd hb h
      · intro i _ _ hfind
        rw [hred]
        exact makeVIOPoolGo_error_value plan _ _ _ i hfind
      · intro _ _ hnone
        rw [hred]
        rw [makeVIOPoolGo_success plan _ _ _
          (fun j hj => by
            have := List.find?_eq_none.mp hnone j hj
            simpa using this)]
        simp [freshVIOPool]
    · have hres : makeVIOPool plan size
          = (Except.error plan.bufferResult, []) := by
        simp [makeVIOPool, hh, hb, freeVIOPoolFrees]
      refine ⟨?_, ?_, ?_, ?_, ?_⟩
      · intro e _
        rw [hres]
      · intro h
        exact absurd hh h
      · intro _ _
        rw [hres]
      · intro i _ hb2 _
        exact absurd hb2 hb
      · intro _ hb2 _
        exact absurd hb2 hb
  · have hres : makeVIOPool plan size
        = (Except.error plan.headerResult, []) := by
      simp [makeVIOPool, hh]
    refine ⟨?_, ?_, ?_, ?_, ?_⟩
    · intro e _
      rw [hres]
    · intro _
      rw [hres]
    · intro hh2 _
      exact absurd hh2 hh
    · intro i hh2 _ _
      exact absurd hh2 hh
    · intro hh2 _ _
      exact absurd hh2 hh

/-- Witness for C7: a concrete plan whose second entry constructor
fails leaves no live allocation and reports that error. -/
theorem C7_make_pool_atomic_failure_witness :
    (makeVIOPool
        { headerResult := 0, bufferResult := 0,
          ctorResult := fun i => if i = 1 then -5 else 0 } 3).1
      = Except.error (-5)
    ∧ (makeVIOPool
        { headerResult := 0, bufferResult := 0,
          ctorResult := fun i => if i = 1 then -5 else 0 } 3).2
      = [] := by
  have h := C7_make_pool_atomic_failure
    { headerResult := 0, bufferResult := 0,
      ctorResult := fun i => if i = 1 then -5 else 0 } 3
  have herr := h.2.2.2.1 1 rfl rfl (by decide)
  refine ⟨?_, h.1 (-5) ?_⟩
  · rw [herr]
    rfl
  · rw [herr]
    rfl

/-- The slab scrubber queue state (slabScrubberInternals.h lines 32-57):
the two FIFO slab queues, the high-priority-only restriction flag, and
whether the scrubber has quiesced.  Slabs are identified by id.  The
scrubbing routines live outside the sampled sources; the queue discipline
is modelled from the spec. -/
structure SlabScrubberState where
  highPrioritySlabs : List Nat
  slabs : List Nat
  highPriorityOnly : Bool
  quiescent : Bool
deriving DecidableEq

/-- An operation applied to the scrubber queues: enqueue a slab at either
priority, start scrubbing the next slab, set or clear the
high-priority-only flag, or quiesce. -/
inductive ScrubberOp
  | registerHighPriority (slab : Nat)
  | registerNormal (slab : Nat)
  | scrubNext
  | setHighPriorityOnly (flag : Bool)
  | quiesce
deriving DecidableEq

/-- Modelled from the spec: slab selection always drains the
highPrioritySlabs queue before the normal queue, and the normal queue is
not consulted while highPriorityOnly is set.  The boolean in the result
records whether the started slab came from the normal queue. -/
def getNextSlab (s : SlabScrubberState) : Option (Nat × Bool) :=
  match s.highPrioritySlabs with
  | h :: _ => some (h, false)
  | [] =>
    if s.highPriorityOnly then none
    else
      match s.slabs with
      | n :: _ => some (n, true)
      | [] => none

/-- Modelled from the spec: one step of the scrubber.  Registration
appends to the tail of the FIFO queue of the requested priority; a scrub
step starts the slab chosen by getNextSlab and removes it from its queue;
quiescing abandons all still-queued slabs.  The second component is the
slab started by this step, if any, tagged with whether it came from the
normal queue. -/
def scrubberStep (s : SlabScrubberState) :
    ScrubberOp → SlabScrubberState × Option (Nat × Bool)
  | ScrubberOp.registerHighPriority slab =>
    ({ s with highPrioritySlabs := s.highPrioritySlabs ++ [slab] }, none)
  | ScrubberOp.registerNormal slab =>
    ({ s with slabs := s.slabs ++ [slab] }, none)
  | ScrubberOp.scrubNext =>
    if s.quiescent then (s, none)
    else
      match getNextSlab s with
      | some (slab, fromNormal) =>
        (if fromNormal then { s with slabs := s.slabs.tail }
         else { s with highPrioritySlabs := s.highPrioritySlabs.tail },
         some (slab, fromNormal))
      | none => (s, none)
  | ScrubberOp.setHighPriorityOnly flag =>
    ({ s with highPriorityOnly := flag }, none)
  | ScrubberOp.quiesce =>
    ({ s with highPrioritySlabs := [], slabs := [], quiescent := true },
     none)

/-- C8: in every reachable state and hence under every interleaving of
enqueue and scrub operations, no step starts a normal-priority slab while
the high-priority queue is non-empty, and every operation other than
quiesce keeps each queued normal-priority slab either queued or started
by that very step, never discarded. -/
theorem C8_priority_discipline (s : SlabScrubberState) (op : ScrubberOp) :
    (∀ slab, (scrubberStep s op).2 = some (slab, true) →
        s.highPrioritySlabs = [])
    ∧ (op ≠ ScrubberOp.quiesce → ∀ slab, slab ∈ s.slabs →
        slab ∈ (scrubberStep s op).1.slabs
        ∨ (scrubberStep s op).2 = some (slab, true)) := by
  constructor
  · intro slab hstart
    match op with
    | ScrubberOp.registerHighPriority t => simp [scrubberStep] at hstart
    | ScrubberOp.registerNormal t => simp [scrubberStep] at hstart
    | ScrubberOp.setHighPriorityOnly f => simp [scrubberStep] at hstart
    | ScrubberOp.quiesce => simp [scrubberStep] at hstart
    | ScrubberOp.scrubNext =>
      by_cases hq : s.quiescent
      · simp [scrubberStep, hq] at hstart
      · cases hh : s.highPrioritySlabs with
        | nil => rfl
        | cons h t =>
          simp [scrubberStep, hq, getNextSlab, hh] at hstart
  · intro hop slab hmem
    match op with
    | ScrubberOp.registerHighPriority t =>
      exact Or.inl (by simpa [scrubberStep] using hmem)
    | ScrubberOp.registerNormal t =>
      exact Or.inl (by simp [scrubberStep]; exact Or.inl hmem)
    | ScrubberOp.setHighPriorityOnly f =>
      exact Or.inl (by simpa [scrubberStep] using hmem)
    | ScrubberOp.quiesce => exact absurd rfl hop
    | ScrubberOp.scrubNext =>
      by_cases hq : s.quiescent
      · exact Or.inl (by simpa [scrubberStep, hq] using hmem)
      · cases hh : s.highPrioritySlabs with
        | cons h t =>
          exact Or.inl
            (by simpa [scrubberStep, hq, getNextSlab, hh] using hmem)
        | nil =>
          by_cases hpo : s.highPriorityOnly
          · exact Or.inl
              (by simpa [scrubberStep, hq, getNextSlab, hh, hpo]
                using hmem)
          · cases hs : s.slabs with
            | nil => rw [hs] at hmem; cases hmem
            | cons n t =>
              rw [hs] at hmem
              cases List.mem_cons.mp hmem with
              | inl heq =>
                right
                simp [scrubberStep, hq, getNextSlab, hh, hpo, hs, heq]
              | inr htail =>
                left
                simp [scrubberStep, hq, getNextSlab, hh, hpo, hs]
                exact htail

/-- Witness for C8: a scrub step on a state with only one queued normal
slab starts exactly that slab. -/
theorem C8_priority_discipline_witness :
    3 ∈ (scrubberStep
          { highPrioritySlabs := [], slabs := [3],
            highPriorityOnly := false, quiescent := false }
          ScrubberOp.scrubNext).1.slabs
    ∨ (scrubberStep
          { highPrioritySlabs := [], slabs := [3],
            highPriorityOnly := false, quiescent := false }
          ScrubberOp.scrubNext).2 = some (3, true) :=
  (C8_priority_discipline
      { highPrioritySlabs := [], slabs := [3],
        highPriorityOnly := false, quiescent := false }
      ScrubberOp.scrubNext).2 (by decide) 3 (by decide)
